import Mathlib

/-!
# capibara: lazy element-wise expression nodes

A shallow embedding of `include/capibara/binary.h` and
`include/capibara/unary.h`.

* An expression is known to the nodes only through its protocol: the static
  constant `rank`, `eval(ndindex)` and `dim(axis)`.  The base template
  `Expr<Derived>` and the type `ndindex_type` are declared outside the two
  headers; the index type is therefore a type parameter `Idx` here.
* A function object is a value of a type `F` with a call operator.  The call
  operator is the class `UnaryFn` / `BinaryFn`; a call expression `f(x)` or
  `f(x, y)` first converts each argument to the parameter type
  (`ImplicitConv`) and then runs the operator (`invoke1`, `invoke2`).
* `F{}` for a type with a default constructor is `ValueInit.init`.
* An expression the headers write but that names no declared constructor is
  a template instantiation that is ill-formed; a definition that contains
  such an expression returns `Except IllFormed`.
-/

namespace capibara

/-! ## Expression protocol and calls -/

/-- Modelled from the spec: the capability set of every expression (the base
template `Expr` is not part of the two headers): the static constant `rank`,
`eval(ndindex)` returning one element, and `dim(axis)` returning the extent
along one axis. -/
structure Expr (Idx V : Type) where
  rank : Nat
  eval : Idx → V
  dim : Nat → Int

/-- An implicit conversion of an argument of type `A` to a parameter of type
`B`, as performed at every call of a function object. -/
class ImplicitConv (A B : Type) where
  conv : A → B

/-- An argument that already has the parameter type is passed unchanged. -/
instance ImplicitConv.same (A : Type) : ImplicitConv A A := ⟨fun a => a⟩

/-- The call operator `B operator()(A) const` of a unary function object. -/
class UnaryFn (F : Type) (A B : outParam Type) where
  call : F → A → B

/-- The call operator `C operator()(A, B) const` of a binary function
object. -/
class BinaryFn (F : Type) (A B C : outParam Type) where
  call : F → A → B → C

/-- Any plain function is a unary function object. -/
instance UnaryFn.ofFun (A B : Type) : UnaryFn (A → B) A B := ⟨fun f a => f a⟩

/-- Any plain two-argument function is a binary function object. -/
instance BinaryFn.ofFun (A B C : Type) : BinaryFn (A → B → C) A B C :=
  ⟨fun f a b => f a b⟩

/-- Value-initialisation `F{}` of a function object type that has a default
constructor. -/
class ValueInit (F : Type) where
  init : F

/-- The call expression `f(x)`. -/
def invoke1 {F X A B : Type} [UnaryFn F A B] [ImplicitConv X A] (f : F) (x : X) : B :=
  UnaryFn.call f (ImplicitConv.conv x : A)

/-- The call expression `f(x, y)`. -/
def invoke2 {F X Y A B C : Type} [BinaryFn F A B C] [ImplicitConv X A] [ImplicitConv Y B]
    (f : F) (x : X) (y : Y) : C :=
  BinaryFn.call f (ImplicitConv.conv x : A) (ImplicitConv.conv y : B)

/-- What makes an instantiation ill-formed. -/
inductive IllFormed where
  /-- No constructor of the named struct takes this number of arguments. -/
  | no_matching_constructor (nargs : Nat)
  /-- A value of a struct type is returned where a scalar is declared. -/
  | no_conversion
  deriving DecidableEq, Repr

/-! ## binary.h: `BinaryExpr`, `zip` -/

/-- `struct BinaryExpr`: the function object by value, both operands by
reference. -/
structure BinaryExpr (F Idx VL VR : Type) where
  op_ : F
  lhs_ : Expr Idx VL
  rhs_ : Expr Idx VR

/-- `ExprTraits<BinaryExpr<F, L, R>>::rank = ExprTraits<L>::rank`. -/
def BinaryExpr.rank {F Idx VL VR : Type} (b : BinaryExpr F Idx VL VR) : Nat :=
  b.lhs_.rank

/-- `BinaryExpr::eval`: `op_(lhs_.eval(idx), rhs_.eval(idx))`. -/
def BinaryExpr.eval {F Idx VL VR A B C : Type} [BinaryFn F A B C] [ImplicitConv VL A]
    [ImplicitConv VR B] (b : BinaryExpr F Idx VL VR) (idx : Idx) : C :=
  invoke2 b.op_ (b.lhs_.eval idx) (b.rhs_.eval idx)

/-- `BinaryExpr::dim`: `lhs_.dim(i)`. -/
def BinaryExpr.dim {F Idx VL VR : Type} (b : BinaryExpr F Idx VL VR) (i : Nat) : Int :=
  b.lhs_.dim i

/-- A binary node is itself an expression (the base `Expr<BinaryExpr<F, L, R>>`). -/
def BinaryExpr.toExpr {F Idx VL VR A B C : Type} [BinaryFn F A B C] [ImplicitConv VL A]
    [ImplicitConv VR B] (b : BinaryExpr F Idx VL VR) : Expr Idx C :=
  { rank := b.rank, eval := b.eval, dim := b.dim }

/-- `zip(lhs, rhs, op)`: `BinaryExpr<F, L, R> {op, lhs, rhs}`. -/
def zip {F Idx VL VR : Type} (lhs : Expr Idx VL) (rhs : Expr Idx VR) (op : F) :
    BinaryExpr F Idx VL VR :=
  { op_ := op, lhs_ := lhs, rhs_ := rhs }

/-- `zip<F>(lhs, rhs)`: `zip(lhs, rhs, F {})`. -/
def zipInit (F : Type) {Idx VL VR : Type} [ValueInit F] (lhs : Expr Idx VL)
    (rhs : Expr Idx VR) : BinaryExpr F Idx VL VR :=
  zip lhs rhs (ValueInit.init : F)

/-! ## unary.h: `UnaryExpr`, `map` -/

/-- `struct UnaryExpr`: the function object by value, the operand by
reference. -/
structure UnaryExpr (F Idx VI : Type) where
  op_ : F
  inner_ : Expr Idx VI

/-- `ExprTraits<UnaryExpr<F, Op>>` inherits `rank` from `ExprTraits<Op>`. -/
def UnaryExpr.rank {F Idx VI : Type} (u : UnaryExpr F Idx VI) : Nat :=
  u.inner_.rank

/-- `UnaryExpr::eval`: `op_(inner_.eval(idx))`. -/
def UnaryExpr.eval {F Idx VI A B : Type} [UnaryFn F A B] [ImplicitConv VI A]
    (u : UnaryExpr F Idx VI) (idx : Idx) : B :=
  invoke1 u.op_ (u.inner_.eval idx)

/-- `UnaryExpr::dim`: `inner_.dim(i)`. -/
def UnaryExpr.dim {F Idx VI : Type} (u : UnaryExpr F Idx VI) (i : Nat) : Int :=
  u.inner_.dim i

/-- A unary node is itself an expression (the base `Expr<UnaryExpr<F, Op>>`). -/
def UnaryExpr.toExpr {F Idx VI A B : Type} [UnaryFn F A B] [ImplicitConv VI A]
    (u : UnaryExpr F Idx VI) : Expr Idx B :=
  { rank := u.rank, eval := u.eval, dim := u.dim }

/-- `map(expr, fun)`: `UnaryExpr<F, E>(fun, expr.self())`. -/
def map {F Idx VI : Type} (expr : Expr Idx VI) (f : F) : UnaryExpr F Idx VI :=
  { op_ := f, inner_ := expr }

/-- Modelled from the spec: the member `map(fn)` of every expression (declared
in the base template, outside the two headers) is the free entry point
`map`. -/
def Expr.map {F Idx VI : Type} (e : Expr Idx VI) (f : F) : UnaryExpr F Idx VI :=
  capibara.map e f

/-! ## Host scalars and leaves -/

/-- The host's `int`: a 32-bit two's complement integer, an integer `val`
with `-2147483648 ≤ val < 2147483648`. -/
structure HostInt where
  val : Int
  inRange : -2147483648 ≤ val ∧ val < 2147483648
  deriving DecidableEq, Repr

namespace HostInt

/-- The representative of `x` modulo `2 ^ 32` in the range of `int`. -/
def wrap (x : Int) : Int :=
  (x + 2147483648) % 4294967296 - 2147483648

/-- The `int` that holds the low 32 bits of `x`. -/
def ofInt (x : Int) : HostInt :=
  { val := wrap x
    inRange := by
      unfold wrap
      omega }

instance : Inhabited HostInt := ⟨ofInt 0⟩
instance (n : Nat) : OfNat HostInt n := ⟨ofInt (n : Int)⟩

/-- Unary `-`, `+`, `-`, `*`: the result modulo `2 ^ 32` (the host language
leaves a signed overflow undefined; this is the value the two's complement
machine computes). -/
instance : Neg HostInt := ⟨fun a => ofInt (-a.val)⟩
instance : Add HostInt := ⟨fun a b => ofInt (a.val + b.val)⟩
instance : Sub HostInt := ⟨fun a b => ofInt (a.val - b.val)⟩
instance : Mul HostInt := ⟨fun a b => ofInt (a.val * b.val)⟩

/-- No quotient exists: the divisor is zero, or the quotient of `-2147483648`
by `-1` is not an `int`.  The host program traps there. -/
def divTraps (a b : HostInt) : Prop :=
  b.val = 0 ∨ (a.val = -2147483648 ∧ b.val = -1)

instance (a b : HostInt) : Decidable (divTraps a b) :=
  inferInstanceAs (Decidable (b.val = 0 ∨ (a.val = -2147483648 ∧ b.val = -1)))

/-- `/`: the quotient truncated towards zero, and no value where the host
traps. -/
instance : HDiv HostInt HostInt (Option HostInt) :=
  ⟨fun a b => if divTraps a b then none else some (ofInt (Int.tdiv a.val b.val))⟩

/-- `%`: the remainder of the truncated division, and no value where the host
traps. -/
instance : HMod HostInt HostInt (Option HostInt) :=
  ⟨fun a b => if divTraps a b then none else some (ofInt (Int.tmod a.val b.val))⟩

/-- `&` and `|` on the two's complement digits. -/
instance : AndOp HostInt := ⟨fun a b => ofInt (Int.land a.val b.val)⟩
instance : OrOp HostInt := ⟨fun a b => ofInt (Int.lor a.val b.val)⟩

/-- The native comparison of two `int`s. -/
instance : LinearOrder HostInt :=
  LinearOrder.lift' HostInt.val (fun a b h => by
    cases a
    cases b
    cases h
    rfl)

end HostInt

/-- Modelled from the spec: a rank-1 leaf over externally owned storage `xs`
(leaf storage is not part of the two headers): `eval` reads the element at
the first index component and `dim(0)` is the number of elements.  An index
outside the extent is outside the leaf's contract; it reads the default
value here. -/
def leaf1 {V : Type} [Inhabited V] (xs : List V) : Expr (List Int) V :=
  { rank := 1
    eval := fun idx => xs.getD (idx.headD 0).toNat default
    dim := fun a => if a = 0 then (xs.length : Int) else 0 }

/-- Modelled from the spec: a rank-2 leaf of shape `(rows, cols)` over
externally owned row-major storage `xs` (leaf storage is not part of the two
headers).  An index outside the shape is outside the leaf's contract; it
reads whatever the flattened position holds, or the default value. -/
def leaf2 {V : Type} [Inhabited V] (rows cols : Nat) (xs : List V) : Expr (List Int) V :=
  { rank := 2
    eval := fun idx => xs.getD ((idx.getD 0 0).toNat * cols + (idx.getD 1 0).toNat) default
    dim := fun a => if a = 0 then (rows : Int) else if a = 1 then (cols : Int) else 0 }

/-! ## Host comparisons between two scalar types -/

/-- The native comparison `left < right` of a value of type `L` with a value
of type `R`. -/
class HostLT (L R : Type) where
  lt : L → R → Prop
  dec : ∀ a b, Decidable (lt a b)

/-- The native comparison `left > right`. -/
class HostGT (L R : Type) where
  gt : L → R → Prop
  dec : ∀ a b, Decidable (gt a b)

/-- The native comparison `left <= right`. -/
class HostLE (L R : Type) where
  le : L → R → Prop
  dec : ∀ a b, Decidable (le a b)

/-- The native comparison `left >= right`. -/
class HostGE (L R : Type) where
  ge : L → R → Prop
  dec : ∀ a b, Decidable (ge a b)

/-- The native comparison `left == right`. -/
class HostEq (L R : Type) where
  eq : L → R → Prop
  dec : ∀ a b, Decidable (eq a b)

/-- The native comparison `left != right`. -/
class HostNe (L R : Type) where
  ne : L → R → Prop
  dec : ∀ a b, Decidable (ne a b)

instance HostLT.same (T : Type) [LT T] [DecidableRel (fun a b : T => a < b)] : HostLT T T :=
  ⟨fun a b => a < b, fun a b => inferInstanceAs (Decidable (a < b))⟩

instance HostGT.same (T : Type) [LT T] [DecidableRel (fun a b : T => a < b)] : HostGT T T :=
  ⟨fun a b => a > b, fun a b => inferInstanceAs (Decidable (b < a))⟩

instance HostLE.same (T : Type) [LE T] [DecidableRel (fun a b : T => a ≤ b)] : HostLE T T :=
  ⟨fun a b => a ≤ b, fun a b => inferInstanceAs (Decidable (a ≤ b))⟩

instance HostGE.same (T : Type) [LE T] [DecidableRel (fun a b : T => a ≤ b)] : HostGE T T :=
  ⟨fun a b => a ≥ b, fun a b => inferInstanceAs (Decidable (b ≤ a))⟩

instance HostEq.same (T : Type) [DecidableEq T] : HostEq T T :=
  ⟨fun a b => a = b, fun a b => inferInstanceAs (Decidable (a = b))⟩

instance HostNe.same (T : Type) [DecidableEq T] : HostNe T T :=
  ⟨fun a b => a ≠ b, fun a b => inferInstanceAs (Decidable (a ≠ b))⟩

/-! ## Host library: `std::min`, `std::max`, `std::minmax` -/

/-- `std::min(a, b)`: `(b < a) ? b : a`. -/
def std_min {T : Type} [LT T] [DecidableRel (fun a b : T => a < b)] (a b : T) : T :=
  if b < a then b else a

/-- `std::max(a, b)`: `(a < b) ? b : a`. -/
def std_max {T : Type} [LT T] [DecidableRel (fun a b : T => a < b)] (a b : T) : T :=
  if a < b then b else a

/-- `std::minmax(a, b)`: `(b < a) ? pair(b, a) : pair(a, b)`. -/
def std_minmax {T : Type} [LT T] [DecidableRel (fun a b : T => a < b)] (a b : T) : T × T :=
  if b < a then (b, a) else (a, b)

/-! ## binary.h: the binary function objects -/

namespace binary_functors

/-- `struct add`. -/
structure add (L R : Type) where
/-- `struct sub`. -/
structure sub (L R : Type) where
/-- `struct mul`. -/
structure mul (L R : Type) where
/-- `struct div`. -/
structure div (L R : Type) where
/-- `struct rem`. -/
structure rem (L R : Type) where
/-- `struct bit_and`. -/
structure bit_and (L R : Type) where
/-- `struct bit_or`. -/
structure bit_or (L R : Type) where
/-- `struct cmp_lt`. -/
structure cmp_lt (L R : Type) where
/-- `struct cmp_gt`. -/
structure cmp_gt (L R : Type) where
/-- `struct cmp_le`. -/
structure cmp_le (L R : Type) where
/-- `struct cmp_ge`. -/
structure cmp_ge (L R : Type) where
/-- `struct cmp_eq`. -/
structure cmp_eq (L R : Type) where
/-- `struct cmp_ne`. -/
structure cmp_ne (L R : Type) where
/-- `struct min`. -/
structure min (T : Type) where
/-- `struct max`. -/
structure max (T : Type) where
/-- `struct minmax`. -/
structure minmax (T : Type) where

instance (L R : Type) : ValueInit (add L R) := ⟨{}⟩
instance (L R : Type) : ValueInit (sub L R) := ⟨{}⟩
instance (L R : Type) : ValueInit (mul L R) := ⟨{}⟩
instance (L R : Type) : ValueInit (div L R) := ⟨{}⟩
instance (L R : Type) : ValueInit (rem L R) := ⟨{}⟩
instance (L R : Type) : ValueInit (bit_and L R) := ⟨{}⟩
instance (L R : Type) : ValueInit (bit_or L R) := ⟨{}⟩
instance (L R : Type) : ValueInit (cmp_lt L R) := ⟨{}⟩
instance (L R : Type) : ValueInit (cmp_gt L R) := ⟨{}⟩
instance (L R : Type) : ValueInit (cmp_le L R) := ⟨{}⟩
instance (L R : Type) : ValueInit (cmp_ge L R) := ⟨{}⟩
instance (L R : Type) : ValueInit (cmp_eq L R) := ⟨{}⟩
instance (L R : Type) : ValueInit (cmp_ne L R) := ⟨{}⟩
instance (T : Type) : ValueInit (min T) := ⟨{}⟩
instance (T : Type) : ValueInit (max T) := ⟨{}⟩
instance (T : Type) : ValueInit (minmax T) := ⟨{}⟩

/-- `add::operator()`: `left + right`. -/
instance add.fn (L R V : Type) [HAdd L R V] : BinaryFn (add L R) L R V :=
  ⟨fun _ left right => left + right⟩

/-- `sub::operator()`: `left - right`. -/
instance sub.fn (L R V : Type) [HSub L R V] : BinaryFn (sub L R) L R V :=
  ⟨fun _ left right => left - right⟩

/-- `mul::operator()`: `left * right`. -/
instance mul.fn (L R V : Type) [HMul L R V] : BinaryFn (mul L R) L R V :=
  ⟨fun _ left right => left * right⟩

/-- `div::operator()`: `left / right`. -/
instance div.fn (L R V : Type) [HDiv L R V] : BinaryFn (div L R) L R V :=
  ⟨fun _ left right => left / right⟩

/-- `rem::operator()`: `left % right`. -/
instance rem.fn (L R V : Type) [HMod L R V] : BinaryFn (rem L R) L R V :=
  ⟨fun _ left right => left % right⟩

/-- `bit_and::operator()`: `left & right`. -/
instance bit_and.fn (L R V : Type) [HAnd L R V] : BinaryFn (bit_and L R) L R V :=
  ⟨fun _ left right => left &&& right⟩

/-- `bit_or::operator()`: `left | right`. -/
instance bit_or.fn (L R V : Type) [HOr L R V] : BinaryFn (bit_or L R) L R V :=
  ⟨fun _ left right => left ||| right⟩

/-- `cmp_lt::operator()`: `(bool)(left < right)`. -/
instance cmp_lt.fn (L R : Type) [HostLT L R] : BinaryFn (cmp_lt L R) L R Bool :=
  ⟨fun _ left right => @decide (HostLT.lt left right) (HostLT.dec left right)⟩

/-- `cmp_gt::operator()`: `(bool)(left > right)`. -/
instance cmp_gt.fn (L R : Type) [HostGT L R] : BinaryFn (cmp_gt L R) L R Bool :=
  ⟨fun _ left right => @decide (HostGT.gt left right) (HostGT.dec left right)⟩

/-- `cmp_le::operator()`: `(bool)(left <= right)`. -/
instance cmp_le.fn (L R : Type) [HostLE L R] : BinaryFn (cmp_le L R) L R Bool :=
  ⟨fun _ left right => @decide (HostLE.le left right) (HostLE.dec left right)⟩

/-- `cmp_ge::operator()`: `(bool)(left >= right)`. -/
instance cmp_ge.fn (L R : Type) [HostGE L R] : BinaryFn (cmp_ge L R) L R Bool :=
  ⟨fun _ left right => @decide (HostGE.ge left right) (HostGE.dec left right)⟩

/-- `cmp_eq::operator()`: `(bool)(left == right)`. -/
instance cmp_eq.fn (L R : Type) [HostEq L R] : BinaryFn (cmp_eq L R) L R Bool :=
  ⟨fun _ left right => @decide (HostEq.eq left right) (HostEq.dec left right)⟩

/-- `cmp_ne::operator()`: `(bool)(left != right)`. -/
instance cmp_ne.fn (L R : Type) [HostNe L R] : BinaryFn (cmp_ne L R) L R Bool :=
  ⟨fun _ left right => @decide (HostNe.ne left right) (HostNe.dec left right)⟩

/-- `min::operator()`: `std::min(left, right)`. -/
instance min.fn (T : Type) [LT T] [DecidableRel (fun a b : T => a < b)] :
    BinaryFn (min T) T T T :=
  ⟨fun _ left right => std_min left right⟩

/-- `max::operator()`: `std::min(left, right)`. -/
instance max.fn (T : Type) [LT T] [DecidableRel (fun a b : T => a < b)] :
    BinaryFn (max T) T T T :=
  ⟨fun _ left right => std_min left right⟩

/-- `minmax::operator()`: `std::minmax(left, right)`. -/
instance minmax.fn (T : Type) [LT T] [DecidableRel (fun a b : T => a < b)] :
    BinaryFn (minmax T) T T (T × T) :=
  ⟨fun _ left right => std_minmax left right⟩

end binary_functors

/-! ## binary.h: the infix operators and `min`, `max`, `minmax` -/

/-- `operator+`: `zip<binary_functors::add<...>>(lhs, rhs)`. -/
def operator_add {Idx VL VR : Type} (lhs : Expr Idx VL) (rhs : Expr Idx VR) :
    BinaryExpr (binary_functors.add VL VR) Idx VL VR :=
  zipInit (binary_functors.add VL VR) lhs rhs

/-- `operator-`: `zip<binary_functors::sub<...>>(lhs, rhs)`. -/
def operator_sub {Idx VL VR : Type} (lhs : Expr Idx VL) (rhs : Expr Idx VR) :
    BinaryExpr (binary_functors.sub VL VR) Idx VL VR :=
  zipInit (binary_functors.sub VL VR) lhs rhs

/-- `operator*`: `zip<binary_functors::mul<...>>(lhs, rhs)`. -/
def operator_mul {Idx VL VR : Type} (lhs : Expr Idx VL) (rhs : Expr Idx VR) :
    BinaryExpr (binary_functors.mul VL VR) Idx VL VR :=
  zipInit (binary_functors.mul VL VR) lhs rhs

/-- `operator/`: `zip<binary_functors::div<...>>(lhs, rhs)`. -/
def operator_div {Idx VL VR : Type} (lhs : Expr Idx VL) (rhs : Expr Idx VR) :
    BinaryExpr (binary_functors.div VL VR) Idx VL VR :=
  zipInit (binary_functors.div VL VR) lhs rhs

/-- `operator%`: `zip<binary_functors::rem<...>>(lhs, rhs)`. -/
def operator_rem {Idx VL VR : Type} (lhs : Expr Idx VL) (rhs : Expr Idx VR) :
    BinaryExpr (binary_functors.rem VL VR) Idx VL VR :=
  zipInit (binary_functors.rem VL VR) lhs rhs

/-- `operator&`: `zip<binary_functors::bit_and<...>>(lhs, rhs)`. -/
def operator_bit_and {Idx VL VR : Type} (lhs : Expr Idx VL) (rhs : Expr Idx VR) :
    BinaryExpr (binary_functors.bit_and VL VR) Idx VL VR :=
  zipInit (binary_functors.bit_and VL VR) lhs rhs

/-- `operator|`: `zip<binary_functors::bit_or<...>>(lhs, rhs)`. -/
def operator_bit_or {Idx VL VR : Type} (lhs : Expr Idx VL) (rhs : Expr Idx VR) :
    BinaryExpr (binary_functors.bit_or VL VR) Idx VL VR :=
  zipInit (binary_functors.bit_or VL VR) lhs rhs

/-- `operator==`: `zip<binary_functors::cmp_eq<...>>(lhs, rhs)`. -/
def operator_eq {Idx VL VR : Type} (lhs : Expr Idx VL) (rhs : Expr Idx VR) :
    BinaryExpr (binary_functors.cmp_eq VL VR) Idx VL VR :=
  zipInit (binary_functors.cmp_eq VL VR) lhs rhs

/-- `operator!=`: `zip<binary_functors::cmp_ne<...>>(lhs, rhs)`. -/
def operator_ne {Idx VL VR : Type} (lhs : Expr Idx VL) (rhs : Expr Idx VR) :
    BinaryExpr (binary_functors.cmp_ne VL VR) Idx VL VR :=
  zipInit (binary_functors.cmp_ne VL VR) lhs rhs

/-- `operator<`: `zip<binary_functors::cmp_lt<...>>(lhs, rhs)`. -/
def operator_lt {Idx VL VR : Type} (lhs : Expr Idx VL) (rhs : Expr Idx VR) :
    BinaryExpr (binary_functors.cmp_lt VL VR) Idx VL VR :=
  zipInit (binary_functors.cmp_lt VL VR) lhs rhs

/-- `operator>`: `zip<binary_functors::cmp_gt<...>>(lhs, rhs)`. -/
def operator_gt {Idx VL VR : Type} (lhs : Expr Idx VL) (rhs : Expr Idx VR) :
    BinaryExpr (binary_functors.cmp_gt VL VR) Idx VL VR :=
  zipInit (binary_functors.cmp_gt VL VR) lhs rhs

/-- `operator<=`: `zip<binary_functors::cmp_le<...>>(lhs, rhs)`. -/
def operator_le {Idx VL VR : Type} (lhs : Expr Idx VL) (rhs : Expr Idx VR) :
    BinaryExpr (binary_functors.cmp_le VL VR) Idx VL VR :=
  zipInit (binary_functors.cmp_le VL VR) lhs rhs

/-- `operator>=`: `zip<binary_functors::cmp_ge<...>>(lhs, rhs)`. -/
def operator_ge {Idx VL VR : Type} (lhs : Expr Idx VL) (rhs : Expr Idx VR) :
    BinaryExpr (binary_functors.cmp_ge VL VR) Idx VL VR :=
  zipInit (binary_functors.cmp_ge VL VR) lhs rhs

/-- `min(lhs, rhs)`: `zip<binary_functors::min<T>>(lhs, rhs)`.  `T` is the
template parameter whose default is the common type of the two value types. -/
def min (T : Type) {Idx VL VR : Type} (lhs : Expr Idx VL) (rhs : Expr Idx VR) :
    BinaryExpr (binary_functors.min T) Idx VL VR :=
  zipInit (binary_functors.min T) lhs rhs

/-- `max(lhs, rhs)`: `zip<binary_functors::max<T>>(lhs, rhs)`.  `T` is the
template parameter whose default is the common type of the two value types. -/
def max (T : Type) {Idx VL VR : Type} (lhs : Expr Idx VL) (rhs : Expr Idx VR) :
    BinaryExpr (binary_functors.max T) Idx VL VR :=
  zipInit (binary_functors.max T) lhs rhs

/-- `minmax(lhs, rhs)`: `zip<binary_functors::minmax<T>>(lhs, rhs)`.  `T` is
the template parameter whose default is the common type of the two value
types. -/
def minmax (T : Type) {Idx VL VR : Type} (lhs : Expr Idx VL) (rhs : Expr Idx VR) :
    BinaryExpr (binary_functors.minmax T) Idx VL VR :=
  zipInit (binary_functors.minmax T) lhs rhs

/-! ## unary.h: `cast`, `clamp`, `pow`, `pow2` -/

/-- The explicit conversion `To(value)`. -/
class StaticCast (From To : Type) where
  cast : From → To

/-- Every implicit conversion can also be written explicitly. -/
instance StaticCast.ofImplicit (A B : Type) [ImplicitConv A B] : StaticCast A B :=
  ⟨fun a => ImplicitConv.conv a⟩

namespace unary_functors

/-- `struct cast`. -/
structure cast (From To : Type) where

instance (From To : Type) : ValueInit (cast From To) := ⟨{}⟩

/-- `cast::operator()`: `To(value)`. -/
instance cast.fn (From To : Type) [StaticCast From To] : UnaryFn (cast From To) From To :=
  ⟨fun _ value => StaticCast.cast value⟩

/-- `struct clamp`: the private members `lo_` and `hi_`. -/
structure clamp (T : Type) where
  lo_ : T
  hi_ : T

/-- The constructors of `clamp`, selected by the argument list: the only one
declared is `clamp(T low, T high) : lo_(low), hi_(high)`. -/
def clamp.construct {T : Type} : List T → Except IllFormed (clamp T)
  | [low, high] => .ok { lo_ := low, hi_ := high }
  | args => .error (.no_matching_constructor args.length)

/-- `clamp::operator()`. -/
def clamp.call {T : Type} [LT T] [DecidableRel (fun a b : T => a < b)] (self : clamp T)
    (value : T) : T :=
  if value < self.lo_ then
    self.lo_
  else if value > self.hi_ then
    self.hi_
  else
    value

instance clamp.fn (T : Type) [LT T] [DecidableRel (fun a b : T => a < b)] :
    UnaryFn (clamp T) T T :=
  ⟨clamp.call⟩

/-- `struct pow`: the private member `expo_`. -/
structure pow (T E : Type) where
  expo_ : E

/-- The constructors of `pow`, selected by the argument list: the only one
declared is `pow(T expo) : expo_(expo)`; an argument of type `E` is converted
to the parameter type `T` first. -/
def pow.construct {T E : Type} [ImplicitConv T E] [ImplicitConv E T] :
    List (T ⊕ E) → Except IllFormed (pow T E)
  | [.inl expo] => .ok { expo_ := ImplicitConv.conv expo }
  | [.inr expo] => .ok { expo_ := ImplicitConv.conv (ImplicitConv.conv expo : T) }
  | args => .error (.no_matching_constructor args.length)

/-- `pow::operator()`: `return pow(value, expo_);`.  Inside the struct the
name `pow` is the struct itself, so the expression constructs a `pow` from
two arguments, and the constructed object would have to be returned as a
`T`. -/
def pow.call {T E : Type} [ImplicitConv T E] [ImplicitConv E T] (self : pow T E) (value : T) :
    Except IllFormed T :=
  match (pow.construct [.inl value, .inr self.expo_] : Except IllFormed (pow T E)) with
  | .ok _ => .error .no_conversion
  | .error e => .error e

instance pow.fn (T E : Type) [ImplicitConv T E] [ImplicitConv E T] :
    UnaryFn (pow T E) T (Except IllFormed T) :=
  ⟨pow.call⟩

/-- `struct pow2`. -/
structure pow2 (T : Type) where

instance (T : Type) : ValueInit (pow2 T) := ⟨{}⟩

/-- `pow2::operator()`: `value * value`. -/
instance pow2.fn (T : Type) [Mul T] : UnaryFn (pow2 T) T T :=
  ⟨fun _ value => value * value⟩

end unary_functors

/-- `cast<R>(e)`: `e.map(unary_functors::cast<expr_value_type<E>, R> {})`. -/
def cast (R : Type) {Idx VI : Type} (e : Expr Idx VI) :
    UnaryExpr (unary_functors.cast VI R) Idx VI :=
  e.map (ValueInit.init : unary_functors.cast VI R)

set_option linter.unusedVariables false in
/-- `clamp(e, lo, hi)`: `e.map(unary_functors::clamp<T> {})`.  The function
object is written with an empty argument list; `lo` and `hi` are not used. -/
def clamp {Idx VI T : Type} (e : Expr Idx VI) (lo hi : T) :
    Except IllFormed (UnaryExpr (unary_functors.clamp T) Idx VI) :=
  match unary_functors.clamp.construct ([] : List T) with
  | .ok f => .ok (e.map f)
  | .error err => .error err

/-- `pow(e, expo)`: `e.map(unary_functors::pow<expr_value_type<E>, T> {expo})`. -/
def pow {Idx VI T : Type} [ImplicitConv VI T] [ImplicitConv T VI] (e : Expr Idx VI) (expo : T) :
    Except IllFormed (UnaryExpr (unary_functors.pow VI T) Idx VI) :=
  match (unary_functors.pow.construct [.inr expo] : Except IllFormed (unary_functors.pow VI T)) with
  | .ok f => .ok (e.map f)
  | .error err => .error err

set_option linter.unusedVariables false in
/-- `pow2(e)`: `e.map(unary_functors::pow2<expr_value_type<E>> {})`.  The
template is declared with a second parameter `T` that occurs in no function
parameter and has no default, so a call has to name it; it does not enter the
node. -/
def pow2 (T : Type) {Idx VI : Type} (e : Expr Idx VI) :
    UnaryExpr (unary_functors.pow2 VI) Idx VI :=
  e.map (ValueInit.init : unary_functors.pow2 VI)

/-! ## Scenario data -/

/-- The leaf `a = [1, 2, 3]`. -/
def leaf_123 : Expr (List Int) HostInt := leaf1 [1, 2, 3]

/-- The leaf `b = [10, 20, 30]`. -/
def leaf_10_20_30 : Expr (List Int) HostInt := leaf1 [10, 20, 30]

/-- The leaf `b = [4, 5, 6]`. -/
def leaf_456 : Expr (List Int) HostInt := leaf1 [4, 5, 6]

/-- The leaf `b = [3, 2, 1]`. -/
def leaf_321 : Expr (List Int) HostInt := leaf1 [3, 2, 1]

/-- The leaf `a = [-5, 0, 5, 10]`. -/
def leaf_clamp : Expr (List Int) HostInt := leaf1 [-5, 0, 5, 10]

/-- A scalar whose comparison looks at `key` only, so that two different
values can compare equivalent (a tie that is not an equality). -/
structure Tagged where
  key : Int
  tag : Nat
  deriving DecidableEq, Repr

namespace Tagged

instance : Inhabited Tagged := ⟨⟨0, 0⟩⟩
instance : Preorder Tagged := Preorder.lift Tagged.key
instance : IsTotal Tagged (fun a b => a ≤ b) := ⟨fun a b => le_total a.key b.key⟩
instance : DecidableRel (fun a b : Tagged => a < b) :=
  fun a b => inferInstanceAs (Decidable (a.key < b.key))
instance : DecidableRel (fun a b : Tagged => a ≤ b) :=
  fun a b => inferInstanceAs (Decidable (a.key ≤ b.key))

end Tagged

/-- A leaf holding the single element `(key 1, tag 0)`. -/
def leaf_tag0 : Expr (List Int) Tagged := leaf1 [⟨1, 0⟩]

/-- A leaf holding the single element `(key 1, tag 1)`. -/
def leaf_tag1 : Expr (List Int) Tagged := leaf1 [⟨1, 1⟩]

/-- A rank-2 leaf of shape `(2, 3)`. -/
def leaf_2x3 : Expr (List Int) HostInt := leaf2 2 3 [1, 2, 3, 4, 5, 6]

/-! ## Nodes over operands whose `eval` has an effect

The bodies of `UnaryExpr::eval` and `BinaryExpr::eval` once more, with the
state an operand's `eval` may touch passed explicitly: this is what a leaf
that counts its `eval` calls observes.  The host leaves the order of the two
operand evaluations of a binary node open; `lhsFirst` fixes it. -/

/-- An expression whose `eval` reads and updates a state `S`. -/
structure EffExpr (S Idx V : Type) where
  rank : Nat
  eval : Idx → S → V × S
  dim : Nat → Int

/-- `struct UnaryExpr` over an operand with an effect. -/
structure EffUnaryExpr (F S Idx VI : Type) where
  op_ : F
  inner_ : EffExpr S Idx VI

/-- `UnaryExpr::eval`: `op_(inner_.eval(idx))`. -/
def EffUnaryExpr.eval {F S Idx VI A B : Type} [UnaryFn F A B] [ImplicitConv VI A]
    (u : EffUnaryExpr F S Idx VI) (idx : Idx) (s : S) : B × S :=
  let r := u.inner_.eval idx s
  (invoke1 u.op_ r.1, r.2)

/-- A unary node over an operand with an effect, as an expression. -/
def EffUnaryExpr.toExpr {F S Idx VI A B : Type} [UnaryFn F A B] [ImplicitConv VI A]
    (u : EffUnaryExpr F S Idx VI) : EffExpr S Idx B :=
  { rank := u.inner_.rank, eval := u.eval, dim := fun i => u.inner_.dim i }

/-- `struct BinaryExpr` over operands with an effect. -/
structure EffBinaryExpr (F S Idx VL VR : Type) where
  op_ : F
  lhs_ : EffExpr S Idx VL
  rhs_ : EffExpr S Idx VR

/-- `BinaryExpr::eval`: `op_(lhs_.eval(idx), rhs_.eval(idx))`, the left
operand evaluated first when `lhsFirst` is true and the right one first
otherwise. -/
def EffBinaryExpr.eval {F S Idx VL VR A B C : Type} [BinaryFn F A B C] [ImplicitConv VL A]
    [ImplicitConv VR B] (lhsFirst : Bool) (b : EffBinaryExpr F S Idx VL VR) (idx : Idx)
    (s : S) : C × S :=
  if lhsFirst then
    let x := b.lhs_.eval idx s
    let y := b.rhs_.eval idx x.2
    (invoke2 b.op_ x.1 y.1, y.2)
  else
    let y := b.rhs_.eval idx s
    let x := b.lhs_.eval idx y.2
    (invoke2 b.op_ x.1 y.1, x.2)

/-- A binary node over operands with an effect, as an expression. -/
def EffBinaryExpr.toExpr {F S Idx VL VR A B C : Type} [BinaryFn F A B C] [ImplicitConv VL A]
    [ImplicitConv VR B] (lhsFirst : Bool) (b : EffBinaryExpr F S Idx VL VR) : EffExpr S Idx C :=
  { rank := b.lhs_.rank, eval := b.eval lhsFirst, dim := fun i => b.lhs_.dim i }

/-- Modelled from the spec: a counting leaf (leaf storage is not part of the
two headers): the leaf `e` with identity `id`, whose `eval` also records the
call, as the pair of its identity and the index it was given. -/
def countingLeaf {Idx V : Type} (id : Nat) (e : Expr Idx V) : EffExpr (List (Nat × Idx)) Idx V :=
  { rank := e.rank, eval := fun idx log => (e.eval idx, (id, idx) :: log), dim := e.dim }

/-! ## Composite expressions -/

/-- The composites that `map` and `zip` build over leaves: a leaf with an
identity, a unary node over a composite, a binary node over two composites.
The value type may change at every node. -/
inductive Composite (Idx : Type) : Type → Type 1 where
  | leaf {V : Type} (id : Nat) (e : Expr Idx V) : Composite Idx V
  | map {A B : Type} (f : A → B) (inner : Composite Idx A) : Composite Idx B
  | zip {A B C : Type} (f : A → B → C) (lhs : Composite Idx A) (rhs : Composite Idx B) :
      Composite Idx C

/-- The expression a composite denotes, built with `map` and `zip`. -/
def Composite.toExpr {Idx : Type} : {V : Type} → Composite Idx V → Expr Idx V
  | _, .leaf _ e => e
  | _, .map f inner => (capibara.map inner.toExpr f).toExpr
  | _, .zip f lhs rhs => (capibara.zip lhs.toExpr rhs.toExpr f).toExpr

/-- The same composite over counting leaves, built from the nodes over
operands with an effect. -/
def Composite.toCounting {Idx : Type} (lhsFirst : Bool) :
    {V : Type} → Composite Idx V → EffExpr (List (Nat × Idx)) Idx V
  | _, .leaf id e => countingLeaf id e
  | _, .map f inner =>
      ({ op_ := f, inner_ := inner.toCounting lhsFirst } :
        EffUnaryExpr _ (List (Nat × Idx)) Idx _).toExpr
  | _, .zip f lhs rhs =>
      ({ op_ := f, lhs_ := lhs.toCounting lhsFirst, rhs_ := rhs.toCounting lhsFirst } :
        EffBinaryExpr _ (List (Nat × Idx)) Idx _ _).toExpr lhsFirst

/-- The identities of the leaf occurrences of a composite, left to right. -/
def Composite.leafIds {Idx : Type} : {V : Type} → Composite Idx V → List Nat
  | _, .leaf id _ => [id]
  | _, .map _ inner => inner.leafIds
  | _, .zip _ lhs rhs => lhs.leafIds ++ rhs.leafIds

/-- The shape an expression reports: its extents on the axes `0 .. rank - 1`. -/
def Expr.shape {Idx V : Type} (e : Expr Idx V) : List Int :=
  (List.range e.rank).map e.dim

/-- The shapes of the leaf occurrences of a composite, left to right. -/
def Composite.leafShapes {Idx : Type} : {V : Type} → Composite Idx V → List (List Int)
  | _, .leaf _ e => [e.shape]
  | _, .map _ inner => inner.leafShapes
  | _, .zip _ lhs rhs => lhs.leafShapes ++ rhs.leafShapes

/-- At every binary node of the composite the two operands report the same
shape. -/
def Composite.shapesAgree {Idx : Type} : {V : Type} → Composite Idx V → Bool
  | _, .leaf _ _ => true
  | _, .map _ inner => inner.shapesAgree
  | _, .zip _ lhs rhs =>
      decide (lhs.toExpr.shape = rhs.toExpr.shape) && lhs.shapesAgree && rhs.shapesAgree

/-- The index `idx` lies within `shape`: it has one component for every axis
and `0 ≤ idx[a] < shape[a]` on every axis `a`. -/
def InBounds (shape : List Int) (idx : List Int) : Prop :=
  List.Forall₂ (fun v d => 0 ≤ v ∧ v < d) idx shape

instance InBounds.decidable (shape idx : List Int) : Decidable (InBounds shape idx) :=
  inferInstanceAs (Decidable (List.Forall₂ _ idx shape))

/-- Two composites of one structure, with the same function objects and leaf
identities, whose corresponding leaves hold the same value at the index `i`:
two assignments of leaf storage to one composite that agree at `i`. -/
inductive Composite.AgreeAt {Idx : Type} (i : Idx) :
    {V : Type} → Composite Idx V → Composite Idx V → Prop where
  | leaf {V : Type} (id : Nat) (e₁ e₂ : Expr Idx V) (h : e₁.eval i = e₂.eval i) :
      AgreeAt i (.leaf id e₁) (.leaf id e₂)
  | map {A B : Type} (f : A → B) (s t : Composite Idx A) (h : AgreeAt i s t) :
      AgreeAt i (.map f s) (.map f t)
  | zip {A B C : Type} (f : A → B → C) (l₁ l₂ : Composite Idx A) (r₁ r₂ : Composite Idx B)
      (hl : AgreeAt i l₁ l₂) (hr : AgreeAt i r₁ r₂) : AgreeAt i (.zip f l₁ r₁) (.zip f l₂ r₂)

/-- The leaf `[2147483647]`, the greatest `int`. -/
def leaf_int_max : Expr (List Int) HostInt := leaf1 [2147483647]

/-- The leaf `[-2147483648]`, the least `int`. -/
def leaf_int_min : Expr (List Int) HostInt := leaf1 [-2147483648]

/-- The leaf `[-1]`. -/
def leaf_neg1 : Expr (List Int) HostInt := leaf1 [-1]

/-- The leaf `[1]`. -/
def leaf_1 : Expr (List Int) HostInt := leaf1 [1]

/-- The leaf `[1, 9, 9]`, equal to `[1, 2, 3]` at index `0` only. -/
def leaf_199 : Expr (List Int) HostInt := leaf1 [1, 9, 9]

/-- The composite `pow2(a + b)` over leaves `a` (identity `0`) and `b`
(identity `1`). -/
def composite_sq_sum (a b : Expr (List Int) HostInt) : Composite (List Int) HostInt :=
  .map (fun x : HostInt => x * x) (.zip (fun x y : HostInt => x + y) (.leaf 0 a) (.leaf 1 b))

/-! ## Pointwise evaluation of the nodes -/

/-- C1: the binary node built by `zip(l, r, f)` evaluates at every index `i`
to the call `f(l.eval(i), r.eval(i))` (for a plain function `g` this is
`g (l.eval i) (r.eval i)`), and `zip<F>(l, r)` is the node `zip(l, r, F{})`,
so both evaluate identically. -/
theorem zip_eval_pointwise {F Idx VL VR A B C : Type} [BinaryFn F A B C] [ImplicitConv VL A]
    [ImplicitConv VR B] [ValueInit F] (l : Expr Idx VL) (r : Expr Idx VR) (f : F) (i : Idx) :
    (zip l r f).eval i = invoke2 f (l.eval i) (r.eval i)
      ∧ (∀ g : VL → VR → C, (zip l r g).eval i = g (l.eval i) (r.eval i))
      ∧ zipInit F l r = zip l r (ValueInit.init : F)
      ∧ (zipInit F l r).eval i = (zip l r (ValueInit.init : F)).eval i :=
  ⟨rfl, fun _ => rfl, rfl, rfl⟩

/-- C2: the unary node built by `map(e, f)` evaluates at every index `i` to
the call `f(e.eval(i))`; for a plain function `g` this is `g (e.eval i)`. -/
theorem map_eval_pointwise {F Idx VI A B : Type} [UnaryFn F A B] [ImplicitConv VI A]
    (e : Expr Idx VI) (f : F) (i : Idx) :
    (map e f).eval i = invoke1 f (e.eval i)
      ∧ (∀ g : VI → B, (map e g).eval i = g (e.eval i))
      ∧ (e.map f).eval i = invoke1 f (e.eval i) :=
  ⟨rfl, fun _ => rfl, rfl⟩

/-! ## `max` -/

/-- The function object `max` runs `std::min`: at every index the node
`max(l, r)` has the value of the node `min(l, r)`. -/
theorem max_eval_eq_min_eval {T Idx VL VR : Type} [LT T] [DecidableRel (fun a b : T => a < b)]
    [ImplicitConv VL T] [ImplicitConv VR T] (l : Expr Idx VL) (r : Expr Idx VR) (i : Idx) :
    (max T l r).eval i = (min T l r).eval i :=
  rfl

/-- C3 (the code departs from the claim): with `a = [1, 2, 3]` and
`b = [4, 5, 6]`, at `i = 0` the operands of `max(a + b, cast<int>(b))` are `5`
and `4`, the greater of the two is `5`, and the node evaluates to `4`. -/
theorem max_scenario_yields_lesser :
    (operator_add leaf_123 leaf_456).eval [0] = 5
      ∧ (cast HostInt leaf_456).eval [0] = 4
      ∧ std_max (5 : HostInt) 4 = 5
      ∧ (max HostInt (operator_add leaf_123 leaf_456).toExpr
          (cast HostInt leaf_456).toExpr).eval [0] = 4
      ∧ (max HostInt (operator_add leaf_123 leaf_456).toExpr
          (cast HostInt leaf_456).toExpr).eval [0] ≠ 5 := by
  decide

/-! ## `clamp` -/

/-- C4 (the code departs from the claim): the entry point `clamp(e, lo, hi)`
writes its function object with an empty argument list, for which `clamp`
declares no constructor, so no node is built and `lo` and `hi` reach no
function object; for `a = [-5, 0, 5, 10]` the function object constructed
with `(0, 7)` and passed to `map` does evaluate to `0, 0, 5, 7`. -/
theorem clamp_entry_discards_bounds :
    (∀ (Idx VI T : Type) (e : Expr Idx VI) (lo hi : T),
        clamp e lo hi = .error (.no_matching_constructor 0))
      ∧ (clamp leaf_clamp (0 : HostInt) 7).toOption.isNone = true
      ∧ (∃ f, unary_functors.clamp.construct [(0 : HostInt), 7] = .ok f
          ∧ (map leaf_clamp f).eval [0] = 0 ∧ (map leaf_clamp f).eval [1] = 0
          ∧ (map leaf_clamp f).eval [2] = 5 ∧ (map leaf_clamp f).eval [3] = 7) := by
  refine ⟨fun _ _ _ _ _ _ => rfl, rfl, ⟨_, rfl, ?_⟩⟩
  decide

/-- C5 (the claim as stated fails): with `lo = 5`, `hi = 0` and `x = 3` the
function object constructed with `(lo, hi)` returns `5`, which does not lie
in the closed interval from `lo` to `hi`. -/
theorem clamp_outside_inverted_bounds :
    unary_functors.clamp.construct [(5 : HostInt), 0] = .ok { lo_ := 5, hi_ := 0 }
      ∧ (unary_functors.clamp.mk (5 : HostInt) 0).call 3 = 5
      ∧ ¬ ((5 : HostInt) ≤ (unary_functors.clamp.mk (5 : HostInt) 0).call 3
            ∧ (unary_functors.clamp.mk (5 : HostInt) 0).call 3 ≤ 0) := by
  refine ⟨rfl, ?_⟩
  decide

/-- C5 (amended): over a totally ordered scalar, the function object
constructed with `(lo, hi)` returns, whenever `lo ≤ hi`, a value in the closed
interval from `lo` to `hi`; and for all `lo`, `hi` the returned value equals
`x` if and only if `lo ≤ x ≤ hi`. -/
theorem clamp_boundary {T : Type} [LinearOrder T] (x lo hi : T) :
    unary_functors.clamp.construct [lo, hi] = .ok { lo_ := lo, hi_ := hi }
      ∧ (lo ≤ hi → lo ≤ (unary_functors.clamp.mk lo hi).call x
          ∧ (unary_functors.clamp.mk lo hi).call x ≤ hi)
      ∧ ((unary_functors.clamp.mk lo hi).call x = x ↔ lo ≤ x ∧ x ≤ hi) := by
  refine ⟨rfl, fun hle => ?_, ?_⟩
  · unfold unary_functors.clamp.call
    by_cases h1 : x < lo
    · simp only [h1, if_true]
      exact ⟨le_refl lo, hle⟩
    · by_cases h2 : x > hi
      · simp only [h1, h2, if_true, if_false]
        exact ⟨hle, le_refl hi⟩
      · simp only [h1, h2, if_false]
        exact ⟨not_lt.mp h1, not_lt.mp h2⟩
  · unfold unary_functors.clamp.call
    by_cases h1 : x < lo
    · simp only [h1, if_true]
      constructor
      · intro h
        exact absurd h (ne_of_gt h1)
      · intro h
        exact absurd h1 (not_lt.mpr h.1)
    · by_cases h2 : x > hi
      · simp only [h1, h2, if_true, if_false]
        constructor
        · intro h
          exact absurd h (ne_of_lt h2)
        · intro h
          exact absurd h2 (not_lt.mpr h.2)
      · rw [if_neg h1, if_neg h2]
        exact ⟨fun _ => ⟨not_lt.mp h1, not_lt.mp h2⟩, fun _ => rfl⟩

/-- C5 (amended), at `lo = 0`, `hi = 7`, `x = 10`: the bounds are in order and
the returned value lies between them. -/
theorem clamp_boundary_witness :
    (0 : HostInt) ≤ 7
      ∧ (0 : HostInt) ≤ (unary_functors.clamp.mk (0 : HostInt) 7).call 10
      ∧ (unary_functors.clamp.mk (0 : HostInt) 7).call 10 ≤ 7 :=
  ⟨by decide, (clamp_boundary (10 : HostInt) 0 7).2.1 (by decide)⟩

/-! ## The infix operators -/

/-- C6: for expressions `l` and `r` of any two scalar types and every index
`i`, each of `l + r`, `l - r`, `l * r`, `l / r`, `l % r`, `l & r` and `l | r`
evaluates to the host operation of those two types applied to `l.eval(i)` and
`r.eval(i)`; in particular for `int`-valued expressions `p` and `q`, with the
32-bit arithmetic of `int`, where `/` and `%` are taken at a right value that
is not zero. -/
theorem operator_arith_pointwise {Idx VL VR V1 V2 V3 V4 V5 V6 V7 : Type} [HAdd VL VR V1]
    [HSub VL VR V2] [HMul VL VR V3] [HDiv VL VR V4] [HMod VL VR V5] [HAnd VL VR V6]
    [HOr VL VR V7] (l : Expr Idx VL) (r : Expr Idx VR) (p q : Expr Idx HostInt) (i : Idx) :
    ((operator_add l r).eval i = l.eval i + r.eval i
        ∧ (operator_sub l r).eval i = l.eval i - r.eval i
        ∧ (operator_mul l r).eval i = l.eval i * r.eval i
        ∧ (operator_div l r).eval i = l.eval i / r.eval i
        ∧ (operator_rem l r).eval i = l.eval i % r.eval i
        ∧ (operator_bit_and l r).eval i = l.eval i &&& r.eval i
        ∧ (operator_bit_or l r).eval i = l.eval i ||| r.eval i)
      ∧ ((operator_add p q).eval i = p.eval i + q.eval i
        ∧ (operator_sub p q).eval i = p.eval i - q.eval i
        ∧ (operator_mul p q).eval i = p.eval i * q.eval i
        ∧ (q.eval i ≠ 0 → (operator_div p q).eval i = p.eval i / q.eval i)
        ∧ (q.eval i ≠ 0 → (operator_rem p q).eval i = p.eval i % q.eval i)
        ∧ (operator_bit_and p q).eval i = p.eval i &&& q.eval i
        ∧ (operator_bit_or p q).eval i = p.eval i ||| q.eval i) :=
  ⟨⟨rfl, rfl, rfl, rfl, rfl, rfl, rfl⟩, ⟨rfl, rfl, rfl, fun _ => rfl, fun _ => rfl, rfl, rfl⟩⟩

/-- C6, at `a = [1, 2, 3]` and `b = [10, 20, 30]`: `a + b` evaluates to
`11, 22, 33`; with `-5` over `3`, a divisor that is not zero, the quotient is
`-1` and the remainder `-2`; the sum of `2147483647` and `1` is the host's
`-2147483648`; and the quotient of `-2147483648` by `-1`, a divisor that is
not zero, has no value in the node as in the host. -/
theorem operator_arith_witness :
    (operator_add leaf_123 leaf_10_20_30).eval [0] = 11
      ∧ (operator_add leaf_123 leaf_10_20_30).eval [1] = 22
      ∧ (operator_add leaf_123 leaf_10_20_30).eval [2] = 33
      ∧ leaf_321.eval [0] ≠ 0
      ∧ (operator_div leaf_clamp leaf_321).eval [0] = some (-1)
      ∧ (operator_rem leaf_clamp leaf_321).eval [0] = some (-2)
      ∧ (operator_add leaf_int_max leaf_1).eval [0] = -2147483648
      ∧ leaf_neg1.eval [0] ≠ 0
      ∧ (operator_div leaf_int_min leaf_neg1).eval [0] = none
      ∧ (operator_rem leaf_int_min leaf_neg1).eval [0] = none :=
  ⟨(operator_arith_pointwise leaf_123 leaf_10_20_30 leaf_123 leaf_10_20_30 [0]).2.1.trans
      (by decide),
    (operator_arith_pointwise leaf_123 leaf_10_20_30 leaf_123 leaf_10_20_30 [1]).2.1.trans
      (by decide),
    (operator_arith_pointwise leaf_123 leaf_10_20_30 leaf_123 leaf_10_20_30 [2]).2.1.trans
      (by decide),
    by decide,
    ((operator_arith_pointwise leaf_clamp leaf_321 leaf_clamp leaf_321 [0]).2.2.2.2.1
      (by decide)).trans (by decide),
    ((operator_arith_pointwise leaf_clamp leaf_321 leaf_clamp leaf_321 [0]).2.2.2.2.2.1
      (by decide)).trans (by decide),
    (operator_arith_pointwise leaf_int_max leaf_1 leaf_int_max leaf_1 [0]).2.1.trans (by decide),
    by decide,
    ((operator_arith_pointwise leaf_int_min leaf_neg1 leaf_int_min leaf_neg1 [0]).2.2.2.2.1
      (by decide)).trans (by decide),
    ((operator_arith_pointwise leaf_int_min leaf_neg1 leaf_int_min leaf_neg1 [0]).2.2.2.2.2.1
      (by decide)).trans (by decide)⟩

/-- C7: for expressions `l` and `r` and every index `i`, each of `l == r`,
`l != r`, `l < r`, `l > r`, `l <= r` and `l >= r` evaluates to a boolean that
is true exactly when the native comparison of `l.eval(i)` with `r.eval(i)`
holds; for operands `p`, `q` of one scalar type the native comparisons are
`=`, `≠`, `<`, `>`, `≤`, `≥` of that type; and for `a = [1, 2, 3]` and
`b = [3, 2, 1]`, `a < b` evaluates to true, false, false. -/
theorem operator_cmp_pointwise {Idx VL VR T : Type} [HostEq VL VR] [HostNe VL VR]
    [HostLT VL VR] [HostGT VL VR] [HostLE VL VR] [HostGE VL VR] [LT T] [LE T] [DecidableEq T]
    [DecidableRel (fun a b : T => a < b)] [DecidableRel (fun a b : T => a ≤ b)]
    (l : Expr Idx VL) (r : Expr Idx VR) (p q : Expr Idx T) (i : Idx) :
    ((((operator_eq l r).eval i : Bool) = true ↔ HostEq.eq (l.eval i) (r.eval i))
        ∧ (((operator_ne l r).eval i : Bool) = true ↔ HostNe.ne (l.eval i) (r.eval i))
        ∧ (((operator_lt l r).eval i : Bool) = true ↔ HostLT.lt (l.eval i) (r.eval i))
        ∧ (((operator_gt l r).eval i : Bool) = true ↔ HostGT.gt (l.eval i) (r.eval i))
        ∧ (((operator_le l r).eval i : Bool) = true ↔ HostLE.le (l.eval i) (r.eval i))
        ∧ (((operator_ge l r).eval i : Bool) = true ↔ HostGE.ge (l.eval i) (r.eval i)))
      ∧ ((((operator_eq p q).eval i : Bool) = true ↔ p.eval i = q.eval i)
        ∧ (((operator_ne p q).eval i : Bool) = true ↔ p.eval i ≠ q.eval i)
        ∧ (((operator_lt p q).eval i : Bool) = true ↔ p.eval i < q.eval i)
        ∧ (((operator_gt p q).eval i : Bool) = true ↔ p.eval i > q.eval i)
        ∧ (((operator_le p q).eval i : Bool) = true ↔ p.eval i ≤ q.eval i)
        ∧ (((operator_ge p q).eval i : Bool) = true ↔ p.eval i ≥ q.eval i))
      ∧ ((operator_lt leaf_123 leaf_321).eval [0] = true
          ∧ (operator_lt leaf_123 leaf_321).eval [1] = false
          ∧ (operator_lt leaf_123 leaf_321).eval [2] = false) :=
  ⟨⟨@decide_eq_true_iff _ (HostEq.dec _ _), @decide_eq_true_iff _ (HostNe.dec _ _),
      @decide_eq_true_iff _ (HostLT.dec _ _), @decide_eq_true_iff _ (HostGT.dec _ _),
      @decide_eq_true_iff _ (HostLE.dec _ _), @decide_eq_true_iff _ (HostGE.dec _ _)⟩,
    ⟨@decide_eq_true_iff _ (HostEq.dec _ _), @decide_eq_true_iff _ (HostNe.dec _ _),
      @decide_eq_true_iff _ (HostLT.dec _ _), @decide_eq_true_iff _ (HostGT.dec _ _),
      @decide_eq_true_iff _ (HostLE.dec _ _), @decide_eq_true_iff _ (HostGE.dec _ _)⟩,
    by decide⟩

/-! ## `pow` -/

/-- C8 (the code departs from the claim): the call operator of `pow` returns
no value for any base and exponent, because its body constructs a `pow` from
two arguments and no such constructor is declared; the entry point
`pow(e, expo)` does build a node, and evaluating that node at any index fails
in the same way.  For base `2` and exponent `3` the result is therefore not
`8`. -/
theorem pow_call_ill_formed :
    (∀ (T E : Type) [ImplicitConv T E] [ImplicitConv E T] (self : unary_functors.pow T E)
        (value : T), self.call value = .error (.no_matching_constructor 2))
      ∧ (∀ (Idx VI T : Type) [ImplicitConv VI T] [ImplicitConv T VI] (e : Expr Idx VI)
          (expo : T) (i : Idx),
          ∃ node, pow e expo = .ok node
            ∧ node.eval i = .error (.no_matching_constructor 2))
      ∧ (unary_functors.pow.mk (3 : HostInt) : unary_functors.pow HostInt HostInt).call 2
          ≠ .ok 8 := by
  refine ⟨fun _ _ _ _ _ _ => rfl, fun _ _ _ _ _ _ _ _ => ⟨_, rfl, rfl⟩, ?_⟩
  intro h
  have herr : (unary_functors.pow.mk (3 : HostInt) : unary_functors.pow HostInt HostInt).call 2
      = .error (.no_matching_constructor 2) := rfl
  rw [herr] at h
  cases h

/-! ## Ranks of the operands of a binary node -/

/-- C9 (the claim as stated fails): `zip` applied to a rank-1 and a rank-2
operand yields a node, and so does `operator+`; that node holds operands of
different ranks and reports the rank of the left one. -/
theorem zip_accepts_rank_mismatch :
    leaf_123.rank = 1 ∧ leaf_2x3.rank = 2
      ∧ (zip leaf_123 leaf_2x3 (fun a b : HostInt => a + b)).lhs_.rank
          ≠ (zip leaf_123 leaf_2x3 (fun a b : HostInt => a + b)).rhs_.rank
      ∧ (operator_add leaf_123 leaf_2x3).lhs_.rank ≠ (operator_add leaf_123 leaf_2x3).rhs_.rank
      ∧ (operator_add leaf_123 leaf_2x3).rank = 1 := by
  decide

/-- C9 (amended): `zip`, the constructor of the binary node and its traits
compare no ranks: for all operands `l`, `r` and every function object `f`,
`zip(l, r, f)` is the node holding `f`, `l` and `r`, whatever the two ranks
are, and the rank of that node (and of the node of an infix operator) is the
rank of `l`. -/
theorem zip_builds_node_rank_of_left {F Idx VL VR : Type} (l : Expr Idx VL) (r : Expr Idx VR)
    (f : F) :
    (zip l r f).op_ = f ∧ (zip l r f).lhs_ = l ∧ (zip l r f).rhs_ = r
      ∧ (zip l r f).rank = l.rank
      ∧ (operator_add l r).lhs_ = l ∧ (operator_add l r).rhs_ = r
      ∧ (operator_add l r).rank = l.rank :=
  ⟨rfl, rfl, rfl, rfl, rfl, rfl, rfl⟩

/-! ## `min` -/

/-- What `std::min` returns under a strict weak ordering, given as a total
preorder: a lower bound of both arguments that is one of them, the first one
unless the second is strictly less. -/
theorem std_min_spec {T : Type} [Preorder T] [IsTotal T (fun a b => a ≤ b)]
    [DecidableRel (fun a b : T => a < b)] (a b : T) :
    std_min a b ≤ a ∧ std_min a b ≤ b ∧ (std_min a b = a ∨ std_min a b = b)
      ∧ (a ≤ b → std_min a b = a) ∧ (b < a → std_min a b = b) := by
  unfold std_min
  by_cases h : b < a
  · rw [if_pos h]
    exact ⟨le_of_lt h, le_refl b, Or.inr rfl, fun hab => absurd h (not_lt_of_le hab),
      fun _ => rfl⟩
  · rw [if_neg h]
    have hab : a ≤ b := by
      rcases IsTotal.total (r := fun x y : T => x ≤ y) a b with h1 | h1
      · exact h1
      · by_contra h2
        exact h (lt_of_le_not_le h1 h2)
    exact ⟨le_refl a, hab, Or.inl rfl, fun _ => rfl, fun hba => absurd hba h⟩

/-- C10: for expressions `l` and `r` and every index `i`, with `a` and `b` the
values `l.eval(i)` and `r.eval(i)` converted to the common type `T`,
`min(l, r).eval(i)` is the lesser of `a` and `b`: it is below both and is one
of them; it is the left value `a` whenever `a ≤ b`, which includes every tie;
and it is `b` when `b < a`. -/
theorem min_eval_lesser {T Idx VL VR : Type} [Preorder T] [IsTotal T (fun a b => a ≤ b)]
    [DecidableRel (fun a b : T => a < b)] [ImplicitConv VL T] [ImplicitConv VR T]
    (l : Expr Idx VL) (r : Expr Idx VR) (i : Idx) :
    (min T l r).eval i ≤ (ImplicitConv.conv (l.eval i) : T)
      ∧ (min T l r).eval i ≤ (ImplicitConv.conv (r.eval i) : T)
      ∧ ((min T l r).eval i = (ImplicitConv.conv (l.eval i) : T)
          ∨ (min T l r).eval i = (ImplicitConv.conv (r.eval i) : T))
      ∧ ((ImplicitConv.conv (l.eval i) : T) ≤ ImplicitConv.conv (r.eval i) →
          (min T l r).eval i = (ImplicitConv.conv (l.eval i) : T))
      ∧ ((ImplicitConv.conv (r.eval i) : T) < ImplicitConv.conv (l.eval i) →
          (min T l r).eval i = (ImplicitConv.conv (r.eval i) : T)) :=
  std_min_spec (ImplicitConv.conv (l.eval i) : T) (ImplicitConv.conv (r.eval i) : T)

/-- C10, at a tie that is not an equality: the two operands compare equivalent
and differ in their tag, and `min` evaluates to the left one. -/
theorem min_eval_lesser_witness :
    leaf_tag0.eval [0] ≤ leaf_tag1.eval [0] ∧ leaf_tag1.eval [0] ≤ leaf_tag0.eval [0]
      ∧ leaf_tag0.eval [0] ≠ leaf_tag1.eval [0]
      ∧ (min Tagged leaf_tag0 leaf_tag1).eval [0] = leaf_tag0.eval [0]
      ∧ (min Tagged leaf_tag1 leaf_tag0).eval [0] = leaf_tag1.eval [0] :=
  ⟨by decide, by decide, by decide,
    (min_eval_lesser leaf_tag0 leaf_tag1 [0]).2.2.2.1 (by decide),
    (min_eval_lesser leaf_tag1 leaf_tag0 [0]).2.2.2.1 (by decide)⟩

/-! ## `minmax` -/

/-- What `std::minmax` returns under a total order: the pair of the lesser
and the greater argument. -/
theorem std_minmax_spec {T : Type} [LinearOrder T] (a b : T) :
    std_minmax a b = (Min.min a b, Max.max a b) := by
  unfold std_minmax
  by_cases h : b < a
  · rw [if_pos h, min_eq_right (le_of_lt h), max_eq_left (le_of_lt h)]
  · rw [if_neg h, min_eq_left (not_lt.mp h), max_eq_right (not_lt.mp h)]

/-- C11: over a totally ordered type the function object `minmax` returns for
all `x` and `y` the pair of the lesser and the greater of the two, so its
first component is at most its second and the pair is `(x, y)` or `(y, x)`;
and `minmax(l, r).eval(i)` is that pair for `l.eval(i)` and `r.eval(i)`
converted to the common type. -/
theorem minmax_eval_pair {T Idx VL VR : Type} [LinearOrder T] [ImplicitConv VL T]
    [ImplicitConv VR T] (x y : T) (l : Expr Idx VL) (r : Expr Idx VR) (i : Idx) :
    BinaryFn.call (ValueInit.init : binary_functors.minmax T) x y = (Min.min x y, Max.max x y)
      ∧ (BinaryFn.call (ValueInit.init : binary_functors.minmax T) x y).1
          ≤ (BinaryFn.call (ValueInit.init : binary_functors.minmax T) x y).2
      ∧ (BinaryFn.call (ValueInit.init : binary_functors.minmax T) x y = (x, y)
          ∨ BinaryFn.call (ValueInit.init : binary_functors.minmax T) x y = (y, x))
      ∧ (minmax T l r).eval i
          = (Min.min (ImplicitConv.conv (l.eval i) : T) (ImplicitConv.conv (r.eval i)),
              Max.max (ImplicitConv.conv (l.eval i) : T) (ImplicitConv.conv (r.eval i))) := by
  have hcall : BinaryFn.call (ValueInit.init : binary_functors.minmax T) x y
      = std_minmax x y := rfl
  refine ⟨hcall.trans (std_minmax_spec x y), ?_, ?_, ?_⟩
  · rw [hcall, std_minmax_spec]
    exact le_trans (min_le_left x y) (le_max_left x y)
  · rw [hcall]
    unfold std_minmax
    by_cases h : y < x
    · rw [if_pos h]
      exact Or.inr rfl
    · rw [if_neg h]
      exact Or.inl rfl
  · exact std_minmax_spec _ _

/-! ## Shape of the nodes -/

/-- C12: for every binary node `b = zip(l, r, f)` and every axis `a`,
`b.dim(a)` is `l.dim(a)` and the rank of `b` is the rank of `l`, also seen
through the node as an expression, and neither changes when the right operand
is replaced by any other; for rank-2 leaves of shape `(2, 3)`, `(a + b).dim(0)`
is `2` and `(a + b).dim(1)` is `3`. -/
theorem zip_dim_of_left {F Idx VL VR VR2 C : Type} (l : Expr Idx VL) (r : Expr Idx VR)
    (r2 : Expr Idx VR2) (f : F) (g : VL → VR → C) (a : Nat) :
    (zip l r f).dim a = l.dim a ∧ (zip l r f).rank = l.rank
      ∧ (zip l r g).toExpr.dim a = l.dim a ∧ (zip l r g).toExpr.rank = l.rank
      ∧ (zip l r f).dim a = (zip l r2 f).dim a ∧ (zip l r f).rank = (zip l r2 f).rank
      ∧ ((operator_add leaf_2x3 leaf_2x3).dim 0 = 2 ∧ (operator_add leaf_2x3 leaf_2x3).dim 1 = 3
          ∧ (operator_add leaf_2x3 leaf_2x3).rank = 2) :=
  ⟨rfl, rfl, rfl, rfl, rfl, rfl, by decide⟩

/-- C13: for every unary node `u = map(e, f)` and every axis `a`, `u.dim(a)`
is `e.dim(a)` and the rank of `u` is the rank of `e`, also seen through the
node as an expression; replacing `f` by any other function object `g` changes
neither. -/
theorem map_dim_of_inner {F G Idx VI B : Type} (e : Expr Idx VI) (f : F) (g : G)
    (h : VI → B) (a : Nat) :
    (map e f).dim a = e.dim a ∧ (map e f).rank = e.rank
      ∧ (map e h).toExpr.dim a = e.dim a ∧ (map e h).toExpr.rank = e.rank
      ∧ (map e f).dim a = (map e g).dim a ∧ (map e f).rank = (map e g).rank :=
  ⟨rfl, rfl, rfl, rfl, rfl, rfl⟩

/-! ## `pow2` -/

/-- C19: for every expression `e`, function objects `f` and `g`, index `i` and
axis `a`, `map(map(e, f), g).eval(i)` is the call `g(f(e.eval(i)))` and
`map(map(e, f), g).dim(a)` is `e.dim(a)` (and the rank is that of `e`); for
plain functions `p` and `q` the nested node has the value, extents and rank of
the single node `map(e, q ∘ p)`. -/
theorem map_map_composition {F G Idx VI A B A2 C U W : Type} [UnaryFn F A B]
    [ImplicitConv VI A] [UnaryFn G A2 C] [ImplicitConv B A2] (e : Expr Idx VI) (f : F) (g : G)
    (p : VI → U) (q : U → W) (i : Idx) (a : Nat) :
    (map (map e f).toExpr g).eval i = invoke1 g (invoke1 f (e.eval i) : B)
      ∧ (map (map e f).toExpr g).dim a = e.dim a
      ∧ (map (map e f).toExpr g).rank = e.rank
      ∧ (map (map e p).toExpr q).eval i = q (p (e.eval i))
      ∧ (map (map e p).toExpr q).eval i = (map e (q ∘ p)).eval i
      ∧ (map (map e p).toExpr q).dim a = (map e (q ∘ p)).dim a
      ∧ (map (map e p).toExpr q).rank = (map e (q ∘ p)).rank :=
  ⟨rfl, rfl, rfl, rfl, rfl, rfl, rfl⟩

/-! ## One root evaluation over counting leaves -/

/-- A root evaluation over counting leaves returns the value of the composite,
whatever calls were recorded before. -/
theorem counting_eval_value {Idx V : Type} (lhsFirst : Bool) (i : Idx) (s : Composite Idx V) :
    ∀ log : List (Nat × Idx), ((s.toCounting lhsFirst).eval i log).1 = s.toExpr.eval i := by
  induction s with
  | leaf id e => intro log; rfl
  | map f inner ih =>
    intro log
    show f ((inner.toCounting lhsFirst).eval i log).1 = f (inner.toExpr.eval i)
    rw [ih]
  | zip f lhs rhs ihl ihr =>
    intro log
    cases lhsFirst
    · show f ((lhs.toCounting false).eval i ((rhs.toCounting false).eval i log).2).1
          ((rhs.toCounting false).eval i log).1 = f (lhs.toExpr.eval i) (rhs.toExpr.eval i)
      rw [ihl, ihr]
    · show f ((lhs.toCounting true).eval i log).1
          ((rhs.toCounting true).eval i ((lhs.toCounting true).eval i log).2).1
          = f (lhs.toExpr.eval i) (rhs.toExpr.eval i)
      rw [ihl, ihr]

/-- A root evaluation at `i` adds to the record, for every leaf identity `k`
and index `j`, as many calls `(k, j)` as `k` has occurrences when `j = i`, and
none otherwise. -/
theorem counting_eval_count {Idx V : Type} [DecidableEq Idx] (lhsFirst : Bool) (i : Idx)
    (k : Nat) (j : Idx) (s : Composite Idx V) :
    ∀ log : List (Nat × Idx),
      List.count (k, j) ((s.toCounting lhsFirst).eval i log).2
        = List.count (k, j) log + (if j = i then s.leafIds.count k else 0) := by
  induction s with
  | leaf id e =>
    intro log
    show List.count (k, j) ((id, i) :: log) = List.count (k, j) log
        + (if j = i then List.count k [id] else 0)
    rw [List.count_cons, List.count_cons, List.count_nil]
    by_cases hj : j = i
    · by_cases hk : id = k
      · simp [hj, hk]
      · simp [hj, hk]
    · have hne : ¬ i = j := fun h => hj h.symm
      simp [hj, hne]
  | map f inner ih =>
    intro log
    exact ih log
  | zip f lhs rhs ihl ihr =>
    intro log
    cases lhsFirst
    · show List.count (k, j)
          ((lhs.toCounting false).eval i ((rhs.toCounting false).eval i log).2).2
          = List.count (k, j) log
            + (if j = i then List.count k (lhs.leafIds ++ rhs.leafIds) else 0)
      rw [ihl, ihr, List.count_append]
      split_ifs <;> omega
    · show List.count (k, j)
          ((rhs.toCounting true).eval i ((lhs.toCounting true).eval i log).2).2
          = List.count (k, j) log
            + (if j = i then List.count k (lhs.leafIds ++ rhs.leafIds) else 0)
      rw [ihr, ihl, List.count_append]
      split_ifs <;> omega

/-- A root evaluation adds as many calls to the record as the composite has
leaf occurrences. -/
theorem counting_eval_length {Idx V : Type} (lhsFirst : Bool) (i : Idx) (s : Composite Idx V) :
    ∀ log : List (Nat × Idx),
      ((s.toCounting lhsFirst).eval i log).2.length = log.length + s.leafIds.length := by
  induction s with
  | leaf id e => intro log; rfl
  | map f inner ih => intro log; exact ih log
  | zip f lhs rhs ihl ihr =>
    intro log
    cases lhsFirst
    · show ((lhs.toCounting false).eval i ((rhs.toCounting false).eval i log).2).2.length
          = log.length + (lhs.leafIds ++ rhs.leafIds).length
      rw [ihl, ihr, List.length_append]
      omega
    · show ((rhs.toCounting true).eval i ((lhs.toCounting true).eval i log).2).2.length
          = log.length + (lhs.leafIds ++ rhs.leafIds).length
      rw [ihr, ihl, List.length_append]
      omega

/-- C15: for every composite built from `map` and `zip` nodes over counting
leaves, either order of operand evaluation, every index `i` and every record
of earlier calls, one evaluation of the root at `i` returns the value of the
composite and adds to the record exactly one call per leaf occurrence, each
with the index `i`: for every leaf identity `k` the number of added calls
`(k, i)` is the number of occurrences of `k`, no call with another index is
added, and the number of added calls is the number of leaf occurrences. -/
theorem fusion_each_leaf_once {Idx V : Type} [DecidableEq Idx] (s : Composite Idx V)
    (lhsFirst : Bool) (i : Idx) (log : List (Nat × Idx)) (k : Nat) (j : Idx) :
    ((s.toCounting lhsFirst).eval i log).1 = s.toExpr.eval i
      ∧ List.count (k, i) ((s.toCounting lhsFirst).eval i log).2
          = List.count (k, i) log + s.leafIds.count k
      ∧ (j ≠ i → List.count (k, j) ((s.toCounting lhsFirst).eval i log).2
          = List.count (k, j) log)
      ∧ ((s.toCounting lhsFirst).eval i log).2.length = log.length + s.leafIds.length
      ∧ ((composite_sq_sum leaf_123 leaf_456).toCounting true).eval [1] []
          = (49, [(1, [1]), (0, [1])])
      ∧ ((composite_sq_sum leaf_123 leaf_123).toCounting false).eval [1] []
          = (16, [(0, [1]), (1, [1])]) := by
  refine ⟨counting_eval_value lhsFirst i s log, ?_, ?_,
    counting_eval_length lhsFirst i s log, by decide, by decide⟩
  · have h := counting_eval_count lhsFirst i k i s log
    rw [if_pos rfl] at h
    exact h
  · intro hj
    have h := counting_eval_count lhsFirst i k j s log
    rw [if_neg hj] at h
    exact h

/-- C15, at `pow2(a + b)` with `a = [1, 2, 3]`, `b = [4, 5, 6]` and the index
`2`, which differs from the index `1` of a call recorded before: the leaf with
identity `0` occurs once and gets one call with index `2`, and the number of
calls with index `1` stays as it was. -/
theorem fusion_each_leaf_once_witness :
    ([1] : List Int) ≠ [2]
      ∧ List.count (0, [2])
          (((composite_sq_sum leaf_123 leaf_456).toCounting true).eval [2] [(0, [1])]).2 = 1
      ∧ List.count (0, [1])
          (((composite_sq_sum leaf_123 leaf_456).toCounting true).eval [2] [(0, [1])]).2 = 1 :=
  ⟨by decide,
    (fusion_each_leaf_once (composite_sq_sum leaf_123 leaf_456) true [2] [(0, [1])] 0
      [1]).2.1.trans (by decide),
    ((fusion_each_leaf_once (composite_sq_sum leaf_123 leaf_456) true [2] [(0, [1])] 0
      [1]).2.2.1 (by decide)).trans (by decide)⟩

/-! ## Purity of `eval` -/

/-- C16: for every composite, every index `i` and two assignments of leaf
storage that give every leaf the same value at `i`, the composite evaluates at
`i` to the same value under both; and evaluating one composite a second time
at `i`, after the first evaluation and whatever it recorded, returns the value
of the first evaluation. -/
theorem eval_two_runs_agree {Idx V : Type} (s t : Composite Idx V) (i : Idx)
    (h : Composite.AgreeAt i s t) (lhsFirst : Bool) (log : List (Nat × Idx)) :
    s.toExpr.eval i = t.toExpr.eval i
      ∧ ((s.toCounting lhsFirst).eval i ((s.toCounting lhsFirst).eval i log).2).1
          = ((s.toCounting lhsFirst).eval i log).1 := by
  constructor
  · induction h with
    | leaf id e₁ e₂ h => exact h
    | map f s t _ ih =>
      show f (s.toExpr.eval i) = f (t.toExpr.eval i)
      rw [ih]
    | zip f l₁ l₂ r₁ r₂ _ _ ihl ihr =>
      show f (l₁.toExpr.eval i) (r₁.toExpr.eval i) = f (l₂.toExpr.eval i) (r₂.toExpr.eval i)
      rw [ihl, ihr]
  · rw [counting_eval_value, counting_eval_value]

/-- C16, at `pow2(a + b)` with `b = [4, 5, 6]` and the two leaves
`a = [1, 2, 3]` and `a = [1, 9, 9]`, which agree at index `0`: both composites
evaluate to `25` there, and they differ at index `1`. -/
theorem eval_two_runs_agree_witness :
    (composite_sq_sum leaf_123 leaf_456).toExpr.eval [0] = 25
      ∧ (composite_sq_sum leaf_199 leaf_456).toExpr.eval [0] = 25
      ∧ (composite_sq_sum leaf_123 leaf_456).toExpr.eval [1]
          ≠ (composite_sq_sum leaf_199 leaf_456).toExpr.eval [1] :=
  ⟨by decide,
    (eval_two_runs_agree (composite_sq_sum leaf_123 leaf_456)
      (composite_sq_sum leaf_199 leaf_456) [0]
      (.map _ _ _ (.zip _ _ _ _ _ (.leaf 0 leaf_123 leaf_199 (by decide))
        (.leaf 1 leaf_456 leaf_456 rfl))) true []).1.symm.trans (by decide),
    by decide⟩

/-! ## Index safety -/

/-- When the operands of every binary node report the same shape, every leaf
of the composite reports the shape of the root. -/
theorem leaf_shapes_eq_root {Idx V : Type} (s : Composite Idx V) :
    s.shapesAgree = true → ∀ sh ∈ s.leafShapes, sh = s.toExpr.shape := by
  induction s with
  | leaf id e =>
    intro _ sh hsh
    exact List.mem_singleton.mp hsh
  | map f inner ih =>
    intro hagree sh hsh
    exact ih hagree sh hsh
  | zip f lhs rhs ihl ihr =>
    intro hagree sh hsh
    have hall : (decide (lhs.toExpr.shape = rhs.toExpr.shape) && lhs.shapesAgree
        && rhs.shapesAgree) = true := hagree
    rw [Bool.and_eq_true, Bool.and_eq_true, decide_eq_true_iff] at hall
    have hroot : (Composite.zip f lhs rhs).toExpr.shape = lhs.toExpr.shape := rfl
    rw [hroot]
    rcases List.mem_append.mp hsh with hmem | hmem
    · exact ihl hall.1.2 sh hmem
    · rw [hall.1.1]
      exact ihr hall.2 sh hmem

/-- C17: for every composite built from `map` and `zip` nodes in which, at
every binary node, the two operands report the same shape (the same extent on
every axis), an index within the extents the root reports is within the
extents of every leaf of the composite, the leaves that a root evaluation
evaluates; without the agreement this fails: for the leaves
`[1, 2, 3]` and `[1]` as left and right operand, the index `2` is within the
root's extent `3` and outside the right leaf's extent `1`. -/
theorem index_within_every_leaf {V : Type} (s : Composite (List Int) V) (i : List Int)
    (hagree : s.shapesAgree = true) (hin : InBounds s.toExpr.shape i) :
    (∀ sh ∈ s.leafShapes, InBounds sh i)
      ∧ ((composite_sq_sum leaf_123 leaf_1).shapesAgree = false
          ∧ InBounds (composite_sq_sum leaf_123 leaf_1).toExpr.shape [2]
          ∧ (composite_sq_sum leaf_123 leaf_1).leafShapes = [leaf_123.shape, leaf_1.shape]
          ∧ ¬ InBounds leaf_1.shape [2]) := by
  refine ⟨fun sh hsh => ?_, by decide⟩
  rw [leaf_shapes_eq_root s hagree sh hsh]
  exact hin

/-- C17, at `pow2(a + b)` over two rank-2 leaves of shape `(2, 3)` and the
index `(1, 2)`: the shapes agree, the index is within the root's extents, and
it is within the extents of both leaves. -/
theorem index_within_every_leaf_witness :
    (composite_sq_sum leaf_2x3 leaf_2x3).shapesAgree = true
      ∧ InBounds (composite_sq_sum leaf_2x3 leaf_2x3).toExpr.shape [1, 2]
      ∧ (∀ sh ∈ (composite_sq_sum leaf_2x3 leaf_2x3).leafShapes, InBounds sh [1, 2]) :=
  ⟨by decide, by decide,
    (index_within_every_leaf (composite_sq_sum leaf_2x3 leaf_2x3) [1, 2] (by decide)
      (by decide)).1⟩

/-! ## Algebra of `clamp` -/

/-- The function object `clamp` with bounds in order returns the greater of
`lo` and the lesser of `x` and `hi`. -/
theorem clamp_call_eq {T : Type} [LinearOrder T] (lo hi x : T) (h : lo ≤ hi) :
    (unary_functors.clamp.mk lo hi).call x = Max.max lo (Min.min x hi) := by
  unfold unary_functors.clamp.call
  by_cases h1 : x < lo
  · rw [if_pos h1, max_eq_left]
    exact le_trans (min_le_left x hi) (le_of_lt h1)
  · by_cases h2 : x > hi
    · rw [if_neg h1, if_pos h2, min_eq_right (le_of_lt h2), max_eq_right h]
    · rw [if_neg h1, if_neg h2, min_eq_left (not_lt.mp h2), max_eq_right (not_lt.mp h1)]

/-- C18: for all `lo ≤ hi` of a totally ordered type, the function object
`clamp` constructed with `(lo, hi)` is idempotent, `clamp(clamp(x))` is
`clamp(x)` for every `x`, and monotone, `x ≤ y` implies
`clamp(x) ≤ clamp(y)`. -/
theorem clamp_idempotent_monotone {T : Type} [LinearOrder T] (lo hi : T) (h : lo ≤ hi)
    (x y : T) :
    (unary_functors.clamp.mk lo hi).call ((unary_functors.clamp.mk lo hi).call x)
        = (unary_functors.clamp.mk lo hi).call x
      ∧ (x ≤ y → (unary_functors.clamp.mk lo hi).call x
          ≤ (unary_functors.clamp.mk lo hi).call y) := by
  constructor
  · rw [clamp_call_eq lo hi _ h, clamp_call_eq lo hi x h]
    have hle : Max.max lo (Min.min x hi) ≤ hi := max_le h (min_le_right x hi)
    rw [min_eq_left hle]
    exact max_eq_right (le_max_left lo _)
  · intro hxy
    rw [clamp_call_eq lo hi x h, clamp_call_eq lo hi y h]
    exact max_le_max (le_refl lo) (min_le_min hxy (le_refl hi))

/-- C18, at `lo = 0`, `hi = 7`, `x = -5`, `y = 10`: the bounds are in order,
`x ≤ y`, clamping `x` twice gives `0` as clamping it once does, and the
clamped values `0` and `7` are in order. -/
theorem clamp_idempotent_monotone_witness :
    (0 : HostInt) ≤ 7 ∧ (-5 : HostInt) ≤ 10
      ∧ (unary_functors.clamp.mk (0 : HostInt) 7).call
          ((unary_functors.clamp.mk (0 : HostInt) 7).call (-5)) = 0
      ∧ (unary_functors.clamp.mk (0 : HostInt) 7).call (-5)
          ≤ (unary_functors.clamp.mk (0 : HostInt) 7).call 10 :=
  ⟨by decide, by decide,
    (clamp_idempotent_monotone (0 : HostInt) 7 (by decide) (-5) 10).1.trans (by decide),
    (clamp_idempotent_monotone (0 : HostInt) 7 (by decide) (-5) 10).2 (by decide)⟩

end capibara
